import Mathlib

/-!
Verification of `lastfm_backup.py` (scrobble/favourites backup script).

The script is shallowly embedded: JSON/Python values are modelled by `PyVal`,
fallible Python expressions (subscripting, `.get` on non-dicts, `int(...)`)
by `Except Unit` / `Option`, the remote API by response functions passed in
as parameters, and the file writes / remote queries performed by the driver
by an explicit event trace (`Ev`).
-/

/-- A Python/JSON value as manipulated by the script: `None`, strings, and
string-keyed dicts.  (The script only ever reads string leaves and dict
nodes of the API responses; numbers do not occur in the fields it touches.) -/
inductive PyVal : Type where
  | null : PyVal
  | str : String → PyVal
  | dict : List (String × PyVal) → PyVal

/-- Decidable equality for `PyVal` (hand-rolled because of the nested list). -/
def PyVal.decEq : (a b : PyVal) → Decidable (a = b)
  | .null, .null => isTrue rfl
  | .null, .str _ => isFalse (fun h => PyVal.noConfusion h)
  | .null, .dict _ => isFalse (fun h => PyVal.noConfusion h)
  | .str _, .null => isFalse (fun h => PyVal.noConfusion h)
  | .str s, .str t =>
    if h : s = t then isTrue (by rw [h]) else isFalse (by intro hc; cases hc; exact h rfl)
  | .str _, .dict _ => isFalse (fun h => PyVal.noConfusion h)
  | .dict _, .null => isFalse (fun h => PyVal.noConfusion h)
  | .dict _, .str _ => isFalse (fun h => PyVal.noConfusion h)
  | .dict [], .dict [] => isTrue rfl
  | .dict [], .dict (_ :: _) => isFalse (by intro h; injection h with h; cases h)
  | .dict (_ :: _), .dict [] => isFalse (by intro h; injection h with h; cases h)
  | .dict ((k, v) :: fs), .dict ((l, w) :: gs) =>
    match String.decEq k l with
    | isFalse hk => isFalse (by intro h; injection h with h; injection h with h1 _; cases h1; exact hk rfl)
    | isTrue hk =>
      match PyVal.decEq v w with
      | isFalse hv => isFalse (by intro h; injection h with h; injection h with h1 _; cases h1; exact hv rfl)
      | isTrue hv =>
        match PyVal.decEq (.dict fs) (.dict gs) with
        | isFalse ht => isFalse (by
            intro h; injection h with h; injection h with _ h2
            exact ht (by rw [h2]))
        | isTrue ht => isTrue (by
            cases hk; cases hv
            injection ht with ht
            rw [ht])
termination_by a _ => sizeOf a
decreasing_by all_goals (simp_arith; try omega)

instance : DecidableEq PyVal := PyVal.decEq

/-- Association-list lookup: models a Python dict keyed by strings
(JSON parsing keeps the last duplicate key; the files in play never have
duplicate keys, and lookup of the first match agrees on those). -/
def pyLookup : List (String × PyVal) → String → Option PyVal
  | [], _ => none
  | (k, v) :: rest, key => if k = key then some v else pyLookup rest key

/-- Python subscripting `x[k]`: raises (`.error`) on a non-dict receiver or a
missing key. -/
def pyGetItem : PyVal → String → Except Unit PyVal
  | .dict fs, k =>
    match pyLookup fs k with
    | some v => .ok v
    | none => .error ()
  | _, _ => .error ()

/-- Python `x.get(k, default)`: raises on a non-dict receiver; a missing key
yields the default (a present key yields its value even if that value is
`None`). -/
def pyDictGetD : PyVal → String → PyVal → Except Unit PyVal
  | .dict fs, k, d => .ok ((pyLookup fs k).getD d)
  | _, _, _ => .error ()

/-- Python `x.get(k)` (default `None`). -/
def pyDictGet (v : PyVal) (k : String) : Except Unit PyVal :=
  pyDictGetD v k .null

/-- Python truthiness of the values that occur here: `None` is falsy, a
string is truthy iff non-empty, a dict is truthy iff non-empty. -/
def pyTruthy : PyVal → Bool
  | .null => false
  | .str s => !s.isEmpty
  | .dict fs => !fs.isEmpty

/-- Python `x or y` (on values): `x` if truthy, else `y`. -/
def pyOr (a b : PyVal) : PyVal :=
  if pyTruthy a then a else b

/-- Digit-string accumulator for `pyInt`. -/
def parseNatAux : List Char → Nat → Option Nat
  | [], acc => some acc
  | c :: rest, acc =>
    if c.isDigit then parseNatAux rest (acc * 10 + (c.toNat - '0'.toNat)) else none

/-- Python `int(s)` on a string: an optional sign followed by a non-empty
digit run.  (Python additionally strips surrounding whitespace and accepts
digit-group underscores; those exotic spellings are not modelled — the
timestamps in play are plain digit strings.) -/
def pyInt (s : String) : Option Int :=
  match s.data with
  | [] => none
  | '-' :: rest =>
    if rest.isEmpty then none else (parseNatAux rest 0).map (fun n => -(n : Int))
  | '+' :: rest =>
    if rest.isEmpty then none else (parseNatAux rest 0).map (fun n => (n : Int))
  | cs => (parseNatAux cs 0).map (fun n => (n : Int))

/-- Python `int(v)`: parses a string, raises on `None`/dicts. -/
def pyIntOf : PyVal → Option Int
  | .str s => pyInt s
  | _ => none

mutual

/-- Python `str(...)` of a `PyVal`, as used by the driver's
`'nowplaying' in str(track)` test: `None` prints as `None`, strings with
single quotes, dicts as `\x7b'k': v, ...\x7d` in insertion order. -/
def pyStr : PyVal → String
  | .null => "None"
  | .str s => "'" ++ s ++ "'"
  | .dict fs => "\x7b" ++ pyStrFields fs ++ "\x7d"

/-- Renders the `'key': value` items of a dict, comma-separated. -/
def pyStrFields : List (String × PyVal) → String
  | [] => ""
  | [(k, v)] => "'" ++ k ++ "': " ++ pyStr v
  | (k, v) :: rest => "'" ++ k ++ "': " ++ pyStr v ++ ", " ++ pyStrFields rest

end

/-- Python `needle in hay` on strings (substring containment). -/
def strContains (hay needle : String) : Bool :=
  decide (needle.data <:+: hay.data)

/-! ## Retry helper `_get` (lines 23-37)

One remote call = one run of the retry loop.  The outcome of each attempt is
supplied as a function of the attempt index: success, an `HTTPError` (the
only exception the loop catches and retries), or any other exception
(propagates immediately). -/

/-- Outcome of one attempt of the wrapped remote call. -/
inductive FetchOutcome (α : Type) : Type where
  | ok : α → FetchOutcome α
  | httpError : Nat → FetchOutcome α
  | otherError : Nat → FetchOutcome α

/-- The failure `_get` terminates with. -/
inductive GetErr : Type where
  | http : Nat → GetErr
  | other : Nat → GetErr
  | runtime : GetErr
deriving DecidableEq

/-- The `for _ in range(max_attempts)` loop of `_get`: remaining iterations,
current attempt index, current `delay`, and `last_exc`.  Returns the result
together with the list of `time.sleep` durations performed. -/
def getLoop {α : Type} (attempts : Nat → FetchOutcome α) :
    Nat → Nat → Nat → Option Nat → Except GetErr α × List Nat
  | 0, _, _, lastExc =>
    (match lastExc with
     | some e => .error (.http e)
     | none => .error .runtime, [])
  | r + 1, i, delay, _lastExc =>
    match attempts i with
    | .ok v => (.ok v, [])
    | .httpError e =>
      let rest := getLoop attempts r (i + 1) (min (delay * 2) 60) (some e)
      (rest.1, delay :: rest.2)
    | .otherError e => (.error (.other e), [])

/-- `_get(url, max_attempts=5)`: starts with `delay = 1` and no saved
exception. -/
def getRetry {α : Type} (attempts : Nat → FetchOutcome α) (maxAttempts : Nat := 5) :
    Except GetErr α × List Nat :=
  getLoop attempts maxAttempts 0 1 none

/-! ## Favourites flow (lines 147-180) -/

/-- One entry of `favourites.json`, i.e. the dict built at lines 164-170. -/
structure FavRec : Type where
  artist : PyVal
  name : PyVal
  date : PyVal
  mbid : PyVal
  url : PyVal
deriving DecidableEq

/-- Lines 161-170: normalization of one raw loved track.  Every field is
fetched with `.get`, so an absent field degrades to `None`; only a present
field of the wrong shape (a non-dict `artist` or `date`) raises. -/
def favProcessTrack (track : PyVal) : Except Unit FavRec := do
  let artistObj ← pyDictGetD track "artist" (.dict [])
  let a1 ← pyDictGet artistObj "name"
  let a2 ← pyDictGet artistObj "#text"
  let artistName := pyOr a1 a2
  let nameV ← pyDictGet track "name"
  let dateObj ← pyDictGetD track "date" (.dict [])
  let dateV ← pyDictGet dateObj "uts"
  let mbidV ← pyDictGet track "mbid"
  let urlV ← pyDictGet track "url"
  return ⟨artistName, nameV, dateV, mbidV, urlV⟩

/-- Lines 159-174: the `for track in loved_tracks` loop; the first raising
track aborts the run (the caught exception is re-raised at line 174). -/
def favProcessPage : List PyVal → List FavRec → Except Unit (List FavRec)
  | [], favs => .ok favs
  | t :: rest, favs =>
    match favProcessTrack t with
    | .ok fav => favProcessPage rest (favs ++ [fav])
    | .error e => .error e

/-- Remote queries and file writes performed by the two flows, in order. -/
inductive Ev : Type where
  | queryLovedTotal : Ev
  | queryLovedPage (page : Nat) : Ev
  | writeFavourites (favs : List FavRec) : Ev
  | queryTotal (toTs : Option Int) : Ev
  | queryPage (page : Nat) (toTs : Option Int) : Ev
  | writeScrobbles (tracks : List PyVal) : Ev
  | writeState (username : String) (lastPage totalPages tracksCount : Nat)
      (resumeToTs : Option Int) : Ev
deriving DecidableEq

/-- The `while fav_page <= fav_total_pages` loop (lines 153-176), phrased
over the list of remaining page numbers; `save_json(favourites, ...)` at
line 178 runs only once the loop has consumed every page. -/
def favPagesLoop (pages : Nat → Except Unit (List PyVal)) :
    List Nat → List FavRec → List Ev × Except Unit (List FavRec)
  | [], favs => ([.writeFavourites favs], .ok favs)
  | p :: rest, favs =>
    match pages p with
    | .error e => ([.queryLovedPage p], .error e)
    | .ok resp =>
      match favProcessPage resp favs with
      | .error e => ([.queryLovedPage p], .error e)
      | .ok favs' =>
        let next := favPagesLoop pages rest favs'
        (.queryLovedPage p :: next.1, next.2)

/-- The favourites phase (lines 147-182): skipped outright when
`favourites.json` exists; otherwise one total-pages query, then pages
`1..total` in order, then the single write. -/
def favRun (favExists : Bool) (totalResp : Except Unit Nat)
    (pages : Nat → Except Unit (List PyVal)) : List Ev × Except Unit (List FavRec) :=
  if favExists then ([], .ok [])
  else
    match totalResp with
    | .error e => ([.queryLovedTotal], .error e)
    | .ok total =>
      let next := favPagesLoop pages (List.range' 1 total) []
      (.queryLovedTotal :: next.1, next.2)

/-! ## Scrobbles flow (lines 184-268) -/

/-- The identity key of a scrobble: `(artist, track name, album, timestamp)`
(lines 196-202 / 233-239).  Components are Python values; an absent field of
a stored record contributes `None`. -/
structure ScrKey : Type where
  artist : PyVal
  name : PyVal
  album : PyVal
  date : PyVal
deriving DecidableEq

/-- Lines 233-239: the identity key of a raw API track, built with
subscripting — any missing field or non-dict intermediate raises. -/
def keyBuild (track : PyVal) : Except Unit ScrKey := do
  let artistObj ← pyGetItem track "artist"
  let a ← pyGetItem artistObj "#text"
  let n ← pyGetItem track "name"
  let albumObj ← pyGetItem track "album"
  let al ← pyGetItem albumObj "#text"
  let dateObj ← pyGetItem track "date"
  let d ← pyGetItem dateObj "uts"
  return ⟨a, n, al, d⟩

/-- Lines 243-248: the record appended to the collection for a new key. -/
def newRecord (k : ScrKey) : PyVal :=
  .dict [("artist", k.artist), ("name", k.name), ("album", k.album), ("date", k.date)]

/-- The identity key of a stored record, read back with `.get` as at lines
196-202 (total version, for stating invariants: non-dict records get a
dummy all-`None` key; they never survive loading anyway). -/
def storedKey : PyVal → ScrKey
  | .dict fs =>
    ⟨(pyLookup fs "artist").getD .null, (pyLookup fs "name").getD .null,
     (pyLookup fs "album").getD .null, (pyLookup fs "date").getD .null⟩
  | _ => ⟨.null, .null, .null, .null⟩

/-- Lines 196-202: the identity key of a loaded record via `.get` — raises
when the record is not a dict. -/
def loadedKey (t : PyVal) : Except Unit ScrKey := do
  let a ← pyDictGet t "artist"
  let n ← pyDictGet t "name"
  let al ← pyDictGet t "album"
  let d ← pyDictGet t "date"
  return ⟨a, n, al, d⟩

/-- Lines 196-203: the `for t in tracks: seen.add(key)` pass over the loaded
output file. -/
def buildSeen : List PyVal → Finset ScrKey → Except Unit (Finset ScrKey)
  | [], acc => .ok acc
  | t :: rest, acc =>
    match loadedKey t with
    | .ok k => buildSeen rest (insert k acc)
    | .error e => .error e

/-- Lines 232-256: processing of one raw track of a fetched page.  A record
whose key is already in `seen` is dropped; a new key is appended to both the
collection and the index; if building the key raises, the exception is
swallowed exactly when `'nowplaying' in str(track)` and re-raised
otherwise. -/
def scrProcessTrack (track : PyVal) (tracks : List PyVal) (seen : Finset ScrKey) :
    Except Unit (List PyVal × Finset ScrKey) :=
  match keyBuild track with
  | .ok k =>
    if k ∈ seen then .ok (tracks, seen)
    else .ok (tracks ++ [newRecord k], insert k seen)
  | .error _ =>
    if strContains (pyStr track) "nowplaying" then .ok (tracks, seen)
    else .error ()

/-- The `for track in response` loop over one page. -/
def scrProcessPage : List PyVal → List PyVal → Finset ScrKey →
    Except Unit (List PyVal × Finset ScrKey)
  | [], tracks, seen => .ok (tracks, seen)
  | t :: rest, tracks, seen =>
    match scrProcessTrack t tracks seen with
    | .ok (tracks', seen') => scrProcessPage rest tracks' seen'
    | .error e => .error e

/-- Line 261: `int(newest_to_oldest[-1]['date']) if newest_to_oldest else
None` — indexing the empty list is never attempted; on a non-empty
collection the subscript or the `int(...)` conversion can raise. -/
def oldestTsExpr (tracks : List PyVal) : Except Unit (Option Int) :=
  match tracks.getLast? with
  | none => .ok none
  | some t => do
    let d ← pyGetItem t "date"
    match pyIntOf d with
    | some n => .ok (some n)
    | none => .error ()

/-- Lines 259-263: one checkpoint — compute the oldest stored timestamp,
then write the full collection to `scrobbles.json`, then write
`scrobbles_state.json` via `save_state` with `tracks_count = len(tracks)`. -/
def checkpointStep (username : String) (total curPage : Nat) (tracks : List PyVal) :
    Except Unit (List Ev) := do
  let o ← oldestTsExpr tracks
  return [.writeScrobbles tracks,
          .writeState username curPage total tracks.length o]

/-- One iteration of the `while cur_page <= total` loop (lines 226-265):
fetch the page, process its tracks, and checkpoint when
`cur_page % 10 == 0 or cur_page == total`. -/
def pageStep (username : String) (toTs : Option Int) (total : Nat)
    (pages : Nat → Except Unit (List PyVal)) (p : Nat)
    (tracks : List PyVal) (seen : Finset ScrKey) :
    List Ev × Except Unit (List PyVal × Finset ScrKey) :=
  match pages p with
  | .error e => ([.queryPage p toTs], .error e)
  | .ok resp =>
    match scrProcessPage resp tracks seen with
    | .error e => ([.queryPage p toTs], .error e)
    | .ok (tracks', seen') =>
      if p % 10 == 0 || p == total then
        match checkpointStep username total p tracks' with
        | .error e => ([.queryPage p toTs], .error e)
        | .ok evs => (.queryPage p toTs :: evs, .ok (tracks', seen'))
      else ([.queryPage p toTs], .ok (tracks', seen'))

/-- The page loop, phrased over the list of remaining page numbers (the
driver runs it on `1..total`). -/
def scrPages (username : String) (toTs : Option Int) (total : Nat)
    (pages : Nat → Except Unit (List PyVal)) :
    List Nat → List PyVal → Finset ScrKey → List Ev × Except Unit (List PyVal)
  | [], tracks, _seen => ([], .ok tracks)
  | p :: rest, tracks, seen =>
    match pageStep username toTs total pages p tracks seen with
    | (evs, .error e) => (evs, .error e)
    | (evs, .ok (tracks', seen')) =>
      let next := scrPages username toTs total pages rest tracks' seen'
      (evs ++ next.1, next.2)

/-- Lines 187-219 (without the remote calls): load `scrobbles.json`, build
the dedup index, and compute `resume_to_ts`.  The input is `None` when the
file does not exist, `.error` when reading/parsing raises; the nested
failure paths (a record that is not a dict, a falsy or unparseable date of
the last record) all reset to the empty collection with no cutoff, exactly
as the `try`/`else` branches at lines 210-217 do. -/
def initScrobbles (fc : Option (Except Unit (List PyVal))) :
    List PyVal × Finset ScrKey × Option Int :=
  match fc with
  | none => ([], ∅, none)
  | some (.error _) => ([], ∅, none)
  | some (.ok tracks) =>
    match buildSeen tracks ∅ with
    | .error _ => ([], ∅, none)
    | .ok seen =>
      match tracks.getLast? with
      | none => ([], ∅, none)
      | some (.dict fs) =>
        let dv := (pyLookup fs "date").getD .null
        if pyTruthy dv then
          match pyIntOf dv with
          | some d => (tracks, seen, some (d - 1))
          | none => ([], ∅, none)
        else ([], ∅, none)
      | some _ => ([], ∅, none)

/-- `load_state` (lines 121-135): absent or unparseable file, or a stored
username that differs, loads as absent; a file whose JSON is not a dict
makes `state.get` at line 132 raise outside the `try`, which is fatal. -/
def load_state (username : String) (fileContent : Option (Except Unit PyVal)) :
    Except Unit (Option PyVal) :=
  match fileContent with
  | none => .ok none
  | some (.error _) => .ok none
  | some (.ok (.dict fs)) =>
    .ok (if (pyLookup fs "username").getD .null = .str username then some (.dict fs) else none)
  | some (.ok _) => .error ()

/-- The scrobbles phase (lines 185-268).  `state` is the checkpoint returned
by `load_state` at line 187; the source binds it and never reads it again,
which the embedding mirrors.  `totalResp`/`pages` give the remote responses
as functions of the `to_ts` bound the query carries. -/
def scrRun (state : Option PyVal) (fc : Option (Except Unit (List PyVal)))
    (totalResp : Option Int → Except Unit Nat)
    (pages : Nat → Option Int → Except Unit (List PyVal))
    (username : String) : List Ev × Except Unit (List PyVal) :=
  let _st := state
  let init := initScrobbles fc
  let tracks0 := init.1
  let seen0 := init.2.1
  let resumeToTs := init.2.2
  match totalResp resumeToTs with
  | .error e => ([.queryTotal resumeToTs], .error e)
  | .ok total =>
    let next := scrPages username resumeToTs total (fun p => pages p resumeToTs)
      (List.range' 1 total) tracks0 seen0
    (.queryTotal resumeToTs :: next.1, next.2)

/-! ## Theorems -/

/-- C10: a checkpoint reached with an empty in-memory collection still
succeeds: the guard `if newest_to_oldest else None` avoids indexing the
empty list, an empty array is written to `scrobbles.json`, and the
checkpoint's `resume_to_ts` is `None`. -/
theorem empty_checkpoint_safe (username : String) (total p : Nat) :
    oldestTsExpr [] = .ok none ∧
    checkpointStep username total p [] =
      .ok [.writeScrobbles [], .writeState username p total 0 none] :=
  ⟨rfl, rfl⟩

/-- C4 counterexample: the claim asserts some pair of runs differing only in
the loaded checkpoint's contents (same output file, same remote responses)
shows different behaviour; in fact the driver binds `load_state`'s result
and never reads it, so no such pair exists. -/
theorem state_unused_ce :
    ¬ ∃ (s1 s2 : Option PyVal) (fc : Option (Except Unit (List PyVal)))
        (totalResp : Option Int → Except Unit Nat)
        (pages : Nat → Option Int → Except Unit (List PyVal)) (username : String),
        scrRun s1 fc totalResp pages username ≠ scrRun s2 fc totalResp pages username := by
  rintro ⟨s1, s2, fc, totalResp, pages, username, hne⟩
  exact hne rfl

/-- C4 amended: the checkpoint is loaded once at startup but its contents
are never consulted; every run behaves exactly as the run that loaded no
checkpoint at all, so the resume strategy is decided solely by the
scrobbles output file. -/
theorem state_unused (s : Option PyVal) (fc : Option (Except Unit (List PyVal)))
    (totalResp : Option Int → Except Unit Nat)
    (pages : Nat → Option Int → Except Unit (List PyVal)) (username : String) :
    scrRun s fc totalResp pages username = scrRun none fc totalResp pages username :=
  rfl

/-- C9 counterexample: a raw favourite with no fields at all — in particular
no artist and no track name — is normalized without any failure, every field
degrading to `None`; the claim says a missing artist or track name must
fail. -/
theorem fav_missing_artist_ok_ce :
    favProcessTrack (PyVal.dict []) = .ok ⟨.null, .null, .null, .null, .null⟩ :=
  rfl

/-- The doubling-with-cap law of the backoff: one `delay = min(delay*2, 60)`
step applied to `min(2^i, 60)` gives `min(2^(i+1), 60)`. -/
theorem min_double_cap (i : Nat) : min (min (2 ^ i) 60 * 2) 60 = min (2 ^ (i + 1)) 60 := by
  rcases le_total (2 ^ i) 60 with h | h
  · rw [min_eq_left h, pow_succ]
  · have h' : 60 ≤ 2 ^ (i + 1) :=
      le_trans h (Nat.pow_le_pow_right (by norm_num) (Nat.le_succ i))
    rw [min_eq_right h, min_eq_right h']
    have h60 : min (60 * 2) 60 = 60 := by norm_num
    exact h60


/-- The sleeps `_get` performs from attempt `i` on, for `r` consecutive
retryable failures: `min(2^(i+k), 60)` seconds after the `k`-th of them. -/
def delaysFrom (i r : Nat) : List Nat :=
  (List.range r).map (fun k => min (2 ^ (i + k)) 60)

theorem delaysFrom_succ (i r : Nat) :
    delaysFrom i (r + 1) = min (2 ^ i) 60 :: delaysFrom (i + 1) r := by
  unfold delaysFrom
  rw [List.range_succ_eq_map]
  simp only [List.map_cons, Nat.add_zero, List.map_map]
  refine congrArg₂ _ rfl ?_
  apply List.map_congr_left
  intro a _
  simp only [Function.comp_apply]
  have h : i + 1 + a = i + a.succ := by omega
  rw [h]

theorem getLoop_all_http {α : Type} (attempts : Nat → FetchOutcome α) (es : Nat → Nat) :
    ∀ (r i : Nat) (lastExc : Option Nat),
      (∀ k, k ≤ r → attempts (i + k) = .httpError (es (i + k))) →
      getLoop attempts (r + 1) i (min (2 ^ i) 60) lastExc =
        (.error (.http (es (i + r))), delaysFrom i (r + 1)) := by
  intro r
  induction r with
  | zero =>
    intro i lastExc h
    have h0 := h 0 (Nat.le_refl 0)
    simp only [Nat.add_zero] at h0
    rw [getLoop, h0, delaysFrom_succ]
    simp [getLoop, delaysFrom]
  | succ r ih =>
    intro i lastExc h
    have h0 := h 0 (Nat.zero_le _)
    simp only [Nat.add_zero] at h0
    have hrec := ih (i + 1) (some (es i)) (by
      intro k hk
      have := h (k + 1) (by omega)
      simpa [Nat.add_assoc, Nat.add_comm 1 k] using this)
    rw [getLoop, h0]
    simp only
    rw [min_double_cap, hrec]
    dsimp only
    conv_rhs => rw [delaysFrom_succ]
    rw [show i + 1 + r = i + (r + 1) from by omega]

theorem getLoop_other {α : Type} (attempts : Nat → FetchOutcome α) (es : Nat → Nat) :
    ∀ (j r i : Nat) (e : Nat) (lastExc : Option Nat),
      j < r →
      (∀ k, k < j → attempts (i + k) = .httpError (es (i + k))) →
      attempts (i + j) = .otherError e →
      getLoop attempts r i (min (2 ^ i) 60) lastExc =
        (.error (.other e), delaysFrom i j) := by
  intro j
  induction j with
  | zero =>
    intro r i e lastExc hjr _ hother
    obtain ⟨r', rfl⟩ : ∃ r', r = r' + 1 := ⟨r - 1, by omega⟩
    simp only [Nat.add_zero] at hother
    rw [getLoop, hother]
    simp [delaysFrom]
  | succ j ih =>
    intro r i e lastExc hjr hhttp hother
    obtain ⟨r', rfl⟩ : ∃ r', r = r' + 1 := ⟨r - 1, by omega⟩
    have h0 := hhttp 0 (Nat.succ_pos j)
    simp only [Nat.add_zero] at h0
    have hrec := ih r' (i + 1) e (some (es i)) (by omega)
      (by
        intro k hk
        have := hhttp (k + 1) (by omega)
        simpa [Nat.add_assoc, Nat.add_comm 1 k] using this)
      (by
        have : i + 1 + j = i + (j + 1) := by omega
        rw [this]
        exact hother)
    rw [getLoop, h0]
    simp only
    rw [min_double_cap, hrec]
    dsimp only
    conv_rhs => rw [delaysFrom_succ]

theorem delaysFrom_zero (r : Nat) :
    delaysFrom 0 r = (List.range r).map (fun k => min (2 ^ k) 60) := by
  simp [delaysFrom]

/-- C6: for a call wrapped by `_get` with its fixed maximum of 5 attempts:
if every attempt fails retryably, the helper sleeps `min(2^k, 60)` seconds
after the `k`-th failure — a delay starting at 1 and doubling capped at 60,
concretely 1, 2, 4, 8, 16 — and then propagates the last failure; a
non-retryable failure at any attempt propagates at once, with no further
attempt and no further sleep. -/
theorem get_retry_policy {α : Type} (attempts : Nat → FetchOutcome α) (es : Nat → Nat) :
    ((∀ k, k < 5 → attempts k = .httpError (es k)) →
      getRetry attempts 5 =
        (.error (.http (es 4)), (List.range 5).map (fun k => min (2 ^ k) 60)) ∧
      (List.range 5).map (fun k => min (2 ^ k) 60) = [1, 2, 4, 8, 16]) ∧
    (∀ j e, j < 5 → (∀ k, k < j → attempts k = .httpError (es k)) →
      attempts j = .otherError e →
      getRetry attempts 5 = (.error (.other e), (List.range j).map (fun k => min (2 ^ k) 60))) := by
  constructor
  · intro h
    constructor
    · have := getLoop_all_http attempts es 4 0 none (by
        intro k hk
        simpa using h k (by omega))
      rw [← delaysFrom_zero]
      simpa [getRetry] using this
    · decide
  · intro j e hj hhttp hother
    have := getLoop_other attempts es j 5 0 e none hj (by
      intro k hk
      simpa using hhttp k hk) (by simpa using hother)
    rw [← delaysFrom_zero]
    simpa [getRetry] using this

/-- Concrete instance of `get_retry_policy`: five straight retryable
failures with code 500 end in the code-500 failure after sleeps
1, 2, 4, 8, 16. -/
theorem get_retry_policy_witness :
    getRetry (fun _ => (FetchOutcome.httpError 500 : FetchOutcome Nat)) 5 =
      (.error (.http 500), (List.range 5).map (fun k => min (2 ^ k) 60)) :=
  ((get_retry_policy (fun _ => (FetchOutcome.httpError 500 : FetchOutcome Nat))
    (fun _ => 500)).1 (fun _ _ => rfl)).1

/-- C9 amended: the favourites normalizer requires nothing — a missing
artist or track name degrades to `None` exactly like the secondary fields
(timestamp, id, url); it can fail only on a present `artist` or `date`
field that is not an object. -/
theorem fav_normalizer_amended (fs : List (String × PyVal)) :
    (∀ v, pyLookup fs "artist" = some v → ∃ afs, v = PyVal.dict afs) →
    (∀ v, pyLookup fs "date" = some v → ∃ dfs, v = PyVal.dict dfs) →
    ∃ r, favProcessTrack (.dict fs) = .ok r ∧
      (pyLookup fs "artist" = none → r.artist = .null) ∧
      (pyLookup fs "name" = none → r.name = .null) ∧
      (pyLookup fs "date" = none → r.date = .null) ∧
      (pyLookup fs "mbid" = none → r.mbid = .null) ∧
      (pyLookup fs "url" = none → r.url = .null) := by
  intro hartist hdate
  have hAobj : ∃ afs, (pyLookup fs "artist").getD (.dict []) = PyVal.dict afs := by
    cases hA : pyLookup fs "artist" with
    | none => exact ⟨[], rfl⟩
    | some v =>
      obtain ⟨afs, rfl⟩ := hartist v hA
      exact ⟨afs, rfl⟩
  have hDobj : ∃ dfs, (pyLookup fs "date").getD (.dict []) = PyVal.dict dfs := by
    cases hD : pyLookup fs "date" with
    | none => exact ⟨[], rfl⟩
    | some v =>
      obtain ⟨dfs, rfl⟩ := hdate v hD
      exact ⟨dfs, rfl⟩
  obtain ⟨afs, hA⟩ := hAobj
  obtain ⟨dfs, hD⟩ := hDobj
  refine ⟨⟨pyOr ((pyLookup afs "name").getD .null) ((pyLookup afs "#text").getD .null),
          (pyLookup fs "name").getD .null,
          (pyLookup dfs "uts").getD .null,
          (pyLookup fs "mbid").getD .null,
          (pyLookup fs "url").getD .null⟩, ?_, ?_, ?_, ?_, ?_, ?_⟩
  · simp only [favProcessTrack, pyDictGetD, pyDictGet, hA, hD, Bind.bind, Except.bind]
    rfl
  · intro h
    simp only [h, Option.getD_none] at hA
    injection hA with h'
    subst h'
    rfl
  · intro h
    simp [h]
  · intro h
    simp only [h, Option.getD_none] at hD
    injection hD with h'
    subst h'
    rfl
  · intro h
    simp [h]
  · intro h
    simp [h]

/-- Concrete instance of `fav_normalizer_amended` at the empty raw record:
normalization succeeds with every field `None`. -/
theorem fav_normalizer_amended_witness :
    ∃ r, favProcessTrack (.dict []) = .ok r ∧
      (pyLookup [] "artist" = none → r.artist = .null) ∧
      (pyLookup [] "name" = none → r.name = .null) ∧
      (pyLookup [] "date" = none → r.date = .null) ∧
      (pyLookup [] "mbid" = none → r.mbid = .null) ∧
      (pyLookup [] "url" = none → r.url = .null) :=
  fav_normalizer_amended [] (fun v h => by simp [pyLookup] at h)
    (fun v h => by simp [pyLookup] at h)

theorem pyLookup_mem : ∀ (fs : List (String × PyVal)) (k : String) (v : PyVal),
    pyLookup fs k = some v → (k, v) ∈ fs := by
  intro fs
  induction fs with
  | nil => intro k v h; simp [pyLookup] at h
  | cons hd rest ih =>
    intro k v h
    obtain ⟨k', v'⟩ := hd
    by_cases hk : k' = k
    · subst hk
      simp only [pyLookup, if_pos rfl] at h
      injection h with h
      subst h
      exact List.mem_cons_self _ _
    · simp only [pyLookup, if_neg hk] at h
      exact List.mem_cons_of_mem _ (ih k v h)

theorem mem_infix_pyStrFields : ∀ (fs : List (String × PyVal)) (k : String) (v : PyVal),
    (k, v) ∈ fs →
    ("'" ++ k ++ "': " ++ pyStr v).data <:+: (pyStrFields fs).data := by
  intro fs
  induction fs with
  | nil => intro k v h; cases h
  | cons hd rest ih =>
    intro k v hmem
    obtain ⟨k', v'⟩ := hd
    rcases List.mem_cons.mp hmem with heq | hmem'
    · injection heq with h1 h2
      subst h1; subst h2
      cases rest with
      | nil => exact List.infix_refl _
      | cons r rs =>
        exact ⟨[], (", " ++ pyStrFields (r :: rs)).data, by simp [pyStrFields]⟩
    · cases rest with
      | nil => cases hmem'
      | cons r rs =>
        have h := ih k v hmem'
        have hsuf : (pyStrFields (r :: rs)).data <:+: (pyStrFields ((k', v') :: r :: rs)).data :=
          ⟨("'" ++ k' ++ "': " ++ pyStr v' ++ ", ").data, [], by simp [pyStrFields]⟩
        exact h.trans hsuf

theorem pyStrFields_infix_dict (fs : List (String × PyVal)) :
    (pyStrFields fs).data <:+: (pyStr (.dict fs)).data :=
  ⟨("\x7b" : String).data, ("\x7d" : String).data, by simp [pyStr]⟩

/-- A record carrying a `nowplaying` key inside its `@attr` object renders
with the word `nowplaying`, so the driver's `'nowplaying' in str(track)`
test accepts it. -/
theorem strContains_nowplaying_of_attr (fs as : List (String × PyVal)) (v : PyVal)
    (hattr : pyLookup fs "@attr" = some (.dict as))
    (hnp : pyLookup as "nowplaying" = some v) :
    strContains (pyStr (.dict fs)) "nowplaying" = true := by
  have h1 : ("nowplaying" : String).data <:+: ("'" ++ "nowplaying" ++ "': " ++ pyStr v).data :=
    ⟨("'" : String).data, ("': " ++ pyStr v).data, by simp⟩
  have h2 := mem_infix_pyStrFields as "nowplaying" v (pyLookup_mem as "nowplaying" v hnp)
  have h3 := pyStrFields_infix_dict as
  have h4 := mem_infix_pyStrFields fs "@attr" (.dict as) (pyLookup_mem fs "@attr" _ hattr)
  have h5 : (pyStr (.dict as)).data <:+: ("'" ++ "@attr" ++ "': " ++ pyStr (.dict as)).data :=
    ⟨("'" ++ "@attr" ++ "': " : String).data, [], by simp⟩
  have h6 := pyStrFields_infix_dict fs
  have hall : ("nowplaying" : String).data <:+: (pyStr (.dict fs)).data :=
    ((((h1.trans h2).trans h3).trans h5).trans h4).trans h6
  simp [strContains, hall]

/-- A raw track without a `date` field cannot yield an identity key: the
`track['date']['uts']` subscript at line 238 raises whatever happened
before it. -/
theorem keyBuild_error_of_no_date (fs : List (String × PyVal))
    (hdate : pyLookup fs "date" = none) : keyBuild (.dict fs) = .error () := by
  have hd : pyGetItem (.dict fs) "date" = .error () := by
    simp [pyGetItem, hdate]
  unfold keyBuild
  simp only [Bind.bind]
  cases pyGetItem (.dict fs) "artist" with
  | error e => cases e; rfl
  | ok ao =>
    simp only [Except.bind]
    cases pyGetItem ao "#text" with
    | error e => cases e; rfl
    | ok a =>
      simp only [Except.bind]
      cases pyGetItem (.dict fs) "name" with
      | error e => cases e; rfl
      | ok n =>
        simp only [Except.bind]
        cases pyGetItem (.dict fs) "album" with
        | error e => cases e; rfl
        | ok alo =>
          simp only [Except.bind]
          cases pyGetItem alo "#text" with
          | error e => cases e; rfl
          | ok al => simp [Except.bind, hd]

/-- C5 counterexample: a raw record that is NOT a now-playing marker (no
`@attr` flag) and is missing its required `date` field, but whose track
name contains the text `nowplaying`: the driver's `'nowplaying' in
str(track)` test swallows the exception, so the malformed record is
silently dropped instead of aborting the run. -/
theorem nowplaying_text_skips_malformed_ce :
    pyLookup [("artist", PyVal.dict [("#text", PyVal.str "A")]),
              ("name", PyVal.str "nowplaying"),
              ("album", PyVal.dict [("#text", PyVal.str "B")])] "@attr" = none ∧
    pyLookup [("artist", PyVal.dict [("#text", PyVal.str "A")]),
              ("name", PyVal.str "nowplaying"),
              ("album", PyVal.dict [("#text", PyVal.str "B")])] "date" = none ∧
    keyBuild (.dict [("artist", PyVal.dict [("#text", PyVal.str "A")]),
                     ("name", PyVal.str "nowplaying"),
                     ("album", PyVal.dict [("#text", PyVal.str "B")])]) = .error () ∧
    scrProcessTrack (.dict [("artist", PyVal.dict [("#text", PyVal.str "A")]),
                            ("name", PyVal.str "nowplaying"),
                            ("album", PyVal.dict [("#text", PyVal.str "B")])]) [] ∅ =
      .ok ([], ∅) :=
  ⟨rfl, rfl, rfl, rfl⟩

/-- C5 amended: a genuine now-playing marker (an `@attr` object with a
`nowplaying` entry, and no `date`) is always skipped, never an error; a
record whose key extraction raises is fatal exactly when its string
rendering does not contain `nowplaying` — when the rendering does contain
that text (for instance inside a field value), the record is silently
skipped even though it is malformed and not a marker. -/
theorem track_normalizer_amended (track : PyVal) (tracks : List PyVal) (seen : Finset ScrKey) :
    (∀ fs as v, track = .dict fs → pyLookup fs "@attr" = some (.dict as) →
        pyLookup as "nowplaying" = some v → pyLookup fs "date" = none →
        scrProcessTrack track tracks seen = .ok (tracks, seen)) ∧
    (keyBuild track = .error () → strContains (pyStr track) "nowplaying" = false →
        scrProcessTrack track tracks seen = .error ()) ∧
    (keyBuild track = .error () → strContains (pyStr track) "nowplaying" = true →
        scrProcessTrack track tracks seen = .ok (tracks, seen)) := by
  refine ⟨?_, ?_, ?_⟩
  · intro fs as v htr hattr hnp hdate
    subst htr
    have hkb := keyBuild_error_of_no_date fs hdate
    have hsc := strContains_nowplaying_of_attr fs as v hattr hnp
    simp [scrProcessTrack, hkb, hsc]
  · intro hkb hsc
    simp [scrProcessTrack, hkb, hsc]
  · intro hkb hsc
    simp [scrProcessTrack, hkb, hsc]

/-- Concrete instance of `track_normalizer_amended`: a bare now-playing
marker is skipped without error and without touching the collection. -/
theorem track_normalizer_amended_witness :
    scrProcessTrack (.dict [("@attr", PyVal.dict [("nowplaying", PyVal.str "true")])]) [] ∅ =
      .ok ([], ∅) :=
  (track_normalizer_amended (.dict [("@attr", PyVal.dict [("nowplaying", PyVal.str "true")])])
    [] ∅).1 _ _ _ rfl rfl rfl rfl

/-- If the favourites page loop fails, it never reaches the write in its
base case: no `favourites.json` write event appears in its trace. -/
theorem favPagesLoop_error_no_write (pages : Nat → Except Unit (List PyVal)) :
    ∀ (ps : List Nat) (favs : List FavRec) (e : Unit),
      (favPagesLoop pages ps favs).2 = .error e →
      ∀ l, Ev.writeFavourites l ∉ (favPagesLoop pages ps favs).1 := by
  intro ps
  induction ps with
  | nil => intro favs e h l; simp [favPagesLoop] at h
  | cons p rest ih =>
    intro favs e h l
    simp only [favPagesLoop] at h ⊢
    cases hp : pages p with
    | error e' => simp [hp]
    | ok resp =>
      cases hproc : favProcessPage resp favs with
      | error e' => simp [hp, hproc]
      | ok favs' =>
        simp only [hp, hproc] at h ⊢
        simp only [List.mem_cons, not_or]
        exact ⟨by simp, ih favs' e h l⟩

/-- If the favourites page loop succeeds, its trace is exactly one fetch per
page followed by the single write of the final collection. -/
theorem favPagesLoop_ok_trace (pages : Nat → Except Unit (List PyVal)) :
    ∀ (ps : List Nat) (favs favs' : List FavRec),
      (favPagesLoop pages ps favs).2 = .ok favs' →
      (favPagesLoop pages ps favs).1 =
        ps.map Ev.queryLovedPage ++ [Ev.writeFavourites favs'] := by
  intro ps
  induction ps with
  | nil =>
    intro favs favs' h
    simp only [favPagesLoop] at h ⊢
    injection h with h
    subst h
    simp
  | cons p rest ih =>
    intro favs favs' h
    simp only [favPagesLoop] at h ⊢
    cases hp : pages p with
    | error e' => simp [hp] at h
    | ok resp =>
      cases hproc : favProcessPage resp favs with
      | error e' => simp [hp, hproc] at h
      | ok favs'' =>
        simp only [hp, hproc] at h ⊢
        rw [ih favs'' favs' h]
        simp

/-- C8: when the favourites phase actually runs (no pre-existing file), a
failure of any fetch — or of any record's processing — aborts the whole
phase with the failure propagated and `favourites.json` never written;
when the phase succeeds, the trace is exactly the total-pages query, the
page fetches `1..N` in order, and then the single write of the full
collection. -/
theorem favourites_atomic_write (totalResp : Except Unit Nat)
    (pages : Nat → Except Unit (List PyVal)) :
    (∀ e, (favRun false totalResp pages).2 = .error e →
      ∀ l, Ev.writeFavourites l ∉ (favRun false totalResp pages).1) ∧
    (∀ N favs, totalResp = .ok N → (favRun false totalResp pages).2 = .ok favs →
      (favRun false totalResp pages).1 =
        Ev.queryLovedTotal :: ((List.range' 1 N).map Ev.queryLovedPage ++
          [Ev.writeFavourites favs])) := by
  constructor
  · intro e herr l
    cases ht : totalResp with
    | error e' => simp [favRun, ht]
    | ok N =>
      simp only [favRun, ht, Bool.false_eq_true, if_false] at herr ⊢
      simp only [List.mem_cons, not_or]
      refine ⟨by simp, ?_⟩
      exact favPagesLoop_error_no_write pages (List.range' 1 N) [] e herr l
  · intro N favs ht hok
    subst ht
    simp only [favRun, Bool.false_eq_true, if_false] at hok ⊢
    rw [favPagesLoop_ok_trace pages (List.range' 1 N) [] favs hok]

/-- Concrete instance of `favourites_atomic_write`: a run whose only page
fetch fails writes no favourites file. -/
theorem favourites_atomic_write_witness :
    Ev.writeFavourites [] ∉
      (favRun false (.ok 1) (fun _ => (.error () : Except Unit (List PyVal)))).1 :=
  (favourites_atomic_write (.ok 1) (fun _ => .error ())).1 () rfl []

/-- Consistency of a driver trace: a checkpoint-file write never comes
first, and every checkpoint-file write is immediately preceded by the
scrobbles-file write it describes, whose collection has exactly the record
count stored in the checkpoint. -/
def ConsistentTrace (t : List Ev) : Prop :=
  (∀ u lp tp c ts, t.get? 0 ≠ some (Ev.writeState u lp tp c ts)) ∧
  (∀ j u lp tp c ts, t.get? (j + 1) = some (Ev.writeState u lp tp c ts) →
    ∃ col, t.get? j = some (Ev.writeScrobbles col) ∧ c = col.length)

theorem ConsistentTrace.append {t1 t2 : List Ev}
    (h1 : ConsistentTrace t1) (h2 : ConsistentTrace t2) :
    ConsistentTrace (t1 ++ t2) := by
  constructor
  · intro u lp tp c ts
    cases t1 with
    | nil => simpa using h2.1 u lp tp c ts
    | cons x xs => simpa using h1.1 u lp tp c ts
  · intro j u lp tp c ts hj
    rcases lt_trichotomy (j + 1) t1.length with hlt | heq | hgt
    · rw [List.get?_append hlt] at hj
      obtain ⟨col, hcol, hc⟩ := h1.2 j u lp tp c ts hj
      exact ⟨col, by rw [List.get?_append (by omega)]; exact hcol, hc⟩
    · rw [List.get?_append_right (by omega)] at hj
      rw [heq] at hj
      simp only [Nat.sub_self] at hj
      exact absurd hj (h2.1 u lp tp c ts)
    · rw [List.get?_append_right (by omega)] at hj
      have hshift : j + 1 - t1.length = (j - t1.length) + 1 := by omega
      rw [hshift] at hj
      obtain ⟨col, hcol, hc⟩ := h2.2 (j - t1.length) u lp tp c ts hj
      refine ⟨col, ?_, hc⟩
      rw [List.get?_append_right (by omega)]
      exact hcol

theorem consistent_nil : ConsistentTrace [] := by
  constructor
  · intro u lp tp c ts; simp
  · intro j u lp tp c ts h; simp at h

/-- Every single-page trace of the scrobbles loop is consistent: it is
either just the fetch, or the fetch followed by the data write and the
state write built from the same collection. -/
theorem pageStep_trace_consistent (username : String) (toTs : Option Int) (total : Nat)
    (pages : Nat → Except Unit (List PyVal)) (p : Nat)
    (tracks : List PyVal) (seen : Finset ScrKey) :
    ConsistentTrace (pageStep username toTs total pages p tracks seen).1 := by
  have hsingle : ∀ b, ConsistentTrace [Ev.queryPage p b] := by
    intro b
    constructor
    · intro u lp tp c ts; simp
    · intro j u lp tp c ts h
      cases j <;> simp at h
  unfold pageStep
  cases hp : pages p with
  | error e => simp only [hp]; exact hsingle toTs
  | ok resp =>
    simp only [hp]
    cases hproc : scrProcessPage resp tracks seen with
    | error e => simp only [hproc]; exact hsingle toTs
    | ok st =>
      obtain ⟨tracks', seen'⟩ := st
      simp only [hproc]
      by_cases hcp : (p % 10 == 0 || p == total) = true
      · rw [if_pos hcp]
        cases hck : checkpointStep username total p tracks' with
        | error e => simp only [hck]; exact hsingle toTs
        | ok evs =>
          simp only [hck]
          have hevs : ∃ o, evs = [Ev.writeScrobbles tracks',
              Ev.writeState username p total tracks'.length o] := by
            unfold checkpointStep at hck
            simp only [Bind.bind] at hck
            cases ho : oldestTsExpr tracks' with
            | error e => rw [ho] at hck; cases hck
            | ok o =>
              rw [ho] at hck
              simp only [Except.bind] at hck
              injection hck with hck
              exact ⟨o, hck.symm⟩
          obtain ⟨o, rfl⟩ := hevs
          constructor
          · intro u lp tp c ts; simp
          · intro j u lp tp c ts h
            match j with
            | 0 => simp at h
            | 1 =>
              simp only [List.get?] at h
              injection h with h
              injection h with h1 h2 h3 h4 h5
              exact ⟨tracks', by simp, by rw [h4]⟩
            | n + 2 => simp at h
      · rw [if_neg hcp]
        exact hsingle toTs

theorem scrPages_trace_consistent (username : String) (toTs : Option Int) (total : Nat)
    (pages : Nat → Except Unit (List PyVal)) :
    ∀ (ps : List Nat) (tracks : List PyVal) (seen : Finset ScrKey),
      ConsistentTrace (scrPages username toTs total pages ps tracks seen).1 := by
  intro ps
  induction ps with
  | nil => intro tracks seen; exact consistent_nil
  | cons p rest ih =>
    intro tracks seen
    unfold scrPages
    cases hps : pageStep username toTs total pages p tracks seen with
    | mk evs out =>
      have hevs : ConsistentTrace evs := by
        have h := pageStep_trace_consistent username toTs total pages p tracks seen
        rw [hps] at h
        exact h
      cases out with
      | error e => simp only [hps]; exact hevs
      | ok st =>
        obtain ⟨tracks', seen'⟩ := st
        simp only [hps]
        exact hevs.append (ih tracks' seen')

/-- C3: in every scrobbles run — resumed or fresh, successful or aborted —
a checkpoint-file write never happens before a scrobbles-file write, and
each checkpoint immediately follows the scrobbles-file write of the very
collection whose length it records, so a reader can never observe a
checkpoint whose record count disagrees with the output file written in
the same step. -/
theorem checkpoint_consistency (state : Option PyVal)
    (fc : Option (Except Unit (List PyVal)))
    (totalResp : Option Int → Except Unit Nat)
    (pages : Nat → Option Int → Except Unit (List PyVal)) (username : String) :
    ConsistentTrace (scrRun state fc totalResp pages username).1 := by
  have hq : ∀ b, ConsistentTrace [Ev.queryTotal b] := by
    intro b
    constructor
    · intro u lp tp c ts; simp
    · intro j u lp tp c ts h
      cases j <;> simp at h
  unfold scrRun
  cases ht : totalResp (initScrobbles fc).2.2 with
  | error e => simp only [ht]; exact hq _
  | ok total =>
    simp only [ht]
    rw [show (Ev.queryTotal (initScrobbles fc).2.2 ::
        (scrPages username (initScrobbles fc).2.2 total
          (fun p => pages p (initScrobbles fc).2.2)
          (List.range' 1 total) (initScrobbles fc).1 (initScrobbles fc).2.1).1) =
      [Ev.queryTotal (initScrobbles fc).2.2] ++
        (scrPages username (initScrobbles fc).2.2 total
          (fun p => pages p (initScrobbles fc).2.2)
          (List.range' 1 total) (initScrobbles fc).1 (initScrobbles fc).2.1).1 from rfl]
    exact (hq _).append (scrPages_trace_consistent _ _ _ _ _ _ _)

/-- Concrete instance of `checkpoint_consistency`: in a one-page fresh run
the state write at trace position 3 is preceded at position 2 by the write
of a collection of exactly the recorded length. -/
theorem checkpoint_consistency_witness :
    ∃ col, ((scrRun none none (fun _ => .ok 1) (fun _ _ => .ok []) "u").1).get? 2 =
      some (Ev.writeScrobbles col) ∧ 0 = col.length :=
  (checkpoint_consistency none none (fun _ => .ok 1) (fun _ _ => .ok []) "u").2
    2 "u" 1 1 0 none rfl

/-- The page number recorded by a checkpoint-file write event. -/
def evStatePage : Ev → Option Nat
  | .writeState _ lp _ _ _ => some lp
  | _ => none

/-- Whether an event writes `scrobbles.json`. -/
def isWriteScrobbles : Ev → Bool
  | .writeScrobbles _ => true
  | _ => false

theorem scrPages_cadence (username : String) (toTs : Option Int) (total : Nat)
    (pages : Nat → Except Unit (List PyVal)) :
    ∀ (ps : List Nat) (tracks : List PyVal) (seen : Finset ScrKey) (res : List PyVal),
      (scrPages username toTs total pages ps tracks seen).2 = .ok res →
      (scrPages username toTs total pages ps tracks seen).1.filterMap evStatePage =
        ps.filter (fun p => p % 10 == 0 || p == total) ∧
      (scrPages username toTs total pages ps tracks seen).1.countP isWriteScrobbles =
        (ps.filter (fun p => p % 10 == 0 || p == total)).length := by
  intro ps
  induction ps with
  | nil => intro tracks seen res h; simp [scrPages]
  | cons p rest ih =>
    intro tracks seen res h
    unfold scrPages at h ⊢
    unfold pageStep at h ⊢
    cases hp : pages p with
    | error e => simp [hp] at h
    | ok resp =>
      simp only [hp] at h ⊢
      cases hproc : scrProcessPage resp tracks seen with
      | error e => simp [hproc] at h
      | ok st =>
        obtain ⟨tracks', seen'⟩ := st
        simp only [hproc] at h ⊢
        by_cases hcp : (p % 10 == 0 || p == total) = true
        · rw [if_pos hcp] at h ⊢
          cases hck : checkpointStep username total p tracks' with
          | error e => simp [hck] at h
          | ok evs =>
            simp only [hck] at h ⊢
            have hevs : ∃ o, evs = [Ev.writeScrobbles tracks',
                Ev.writeState username p total tracks'.length o] := by
              unfold checkpointStep at hck
              simp only [Bind.bind] at hck
              cases ho : oldestTsExpr tracks' with
              | error e => rw [ho] at hck; cases hck
              | ok o =>
                rw [ho] at hck
                simp only [Except.bind] at hck
                injection hck with hck
                exact ⟨o, hck.symm⟩
            obtain ⟨o, rfl⟩ := hevs
            obtain ⟨ih1, ih2⟩ := ih tracks' seen' res h
            constructor
            · simp [List.filterMap_cons, List.filter_cons, evStatePage, hcp, ih1]
            · simp [List.countP_cons, List.countP_append, List.filter_cons,
                isWriteScrobbles, hcp, ih2]
        · rw [if_neg hcp] at h ⊢
          obtain ⟨ih1, ih2⟩ := ih tracks' seen' res h
          have hcpf : (p % 10 == 0 || p == total) = false := by
            simpa using hcp
          constructor
          · simp [List.filterMap_cons, List.filter_cons, evStatePage, hcpf, ih1]
          · simp [List.countP_cons, List.filter_cons, isWriteScrobbles, hcpf, ih2]

/-- C7: in a scrobbles run that completes successfully, the pages recorded
by the checkpoint-file writes are exactly the pages `p` in `1..total` with
`p % 10 == 0` or `p == total`, in order, and the number of full-collection
writes to `scrobbles.json` equals the number of such pages — no checkpoint
is persisted after any other page. -/
theorem checkpoint_cadence (state : Option PyVal)
    (fc : Option (Except Unit (List PyVal)))
    (totalResp : Option Int → Except Unit Nat)
    (pages : Nat → Option Int → Except Unit (List PyVal)) (username : String)
    (total : Nat) (res : List PyVal)
    (ht : totalResp (initScrobbles fc).2.2 = .ok total)
    (hok : (scrRun state fc totalResp pages username).2 = .ok res) :
    (scrRun state fc totalResp pages username).1.filterMap evStatePage =
      (List.range' 1 total).filter (fun p => p % 10 == 0 || p == total) ∧
    (scrRun state fc totalResp pages username).1.countP isWriteScrobbles =
      ((List.range' 1 total).filter (fun p => p % 10 == 0 || p == total)).length := by
  unfold scrRun at hok ⊢
  simp only [ht] at hok ⊢
  obtain ⟨h1, h2⟩ := scrPages_cadence username (initScrobbles fc).2.2 total
    (fun p => pages p (initScrobbles fc).2.2) (List.range' 1 total)
    (initScrobbles fc).1 (initScrobbles fc).2.1 res hok
  constructor
  · simpa [List.filterMap_cons, evStatePage] using h1
  · simpa [List.countP_cons, isWriteScrobbles] using h2

/-- Concrete instance of `checkpoint_cadence`: a fresh one-page run
checkpoints exactly once, after its final page. -/
theorem checkpoint_cadence_witness :
    (scrRun none none (fun _ => .ok 1) (fun _ _ => .ok []) "u").1.filterMap evStatePage =
      (List.range' 1 1).filter (fun p => p % 10 == 0 || p == 1) ∧
    (scrRun none none (fun _ => .ok 1) (fun _ _ => .ok []) "u").1.countP isWriteScrobbles =
      ((List.range' 1 1).filter (fun p => p % 10 == 0 || p == 1)).length :=
  checkpoint_cadence none none (fun _ => .ok 1) (fun _ _ => .ok []) "u" 1 [] rfl rfl

/-- Every page fetch of the scrobbles loop carries exactly the `to_ts`
bound the loop was started with. -/
theorem pageStep_query_bound (username : String) (toTs : Option Int) (total : Nat)
    (pages : Nat → Except Unit (List PyVal)) (p : Nat)
    (tracks : List PyVal) (seen : Finset ScrKey) :
    ∀ q b, Ev.queryPage q b ∈ (pageStep username toTs total pages p tracks seen).1 →
      b = toTs := by
  intro q b
  unfold pageStep
  cases hp : pages p with
  | error e => simp only [hp]; intro h; simp at h; exact h.2
  | ok resp =>
    simp only [hp]
    cases hproc : scrProcessPage resp tracks seen with
    | error e => intro h; simp at h; exact h.2
    | ok st =>
      obtain ⟨tracks', seen'⟩ := st
      simp only [hproc]
      by_cases hcp : (p % 10 == 0 || p == total) = true
      · rw [if_pos hcp]
        cases hck : checkpointStep username total p tracks' with
        | error e => simp only [hck]; intro h; simp at h; exact h.2
        | ok evs =>
          simp only [hck]
          have hevs : ∃ o, evs = [Ev.writeScrobbles tracks',
              Ev.writeState username p total tracks'.length o] := by
            unfold checkpointStep at hck
            simp only [Bind.bind] at hck
            cases ho : oldestTsExpr tracks' with
            | error e => rw [ho] at hck; cases hck
            | ok o =>
              rw [ho] at hck
              simp only [Except.bind] at hck
              injection hck with hck
              exact ⟨o, hck.symm⟩
          obtain ⟨o, rfl⟩ := hevs
          intro h
          simp at h
          exact h.2
      · rw [if_neg hcp]
        intro h
        simp at h
        exact h.2

/-- No nested query ever re-issues the total-pages request, and every page
request of the loop carries the starting bound. -/
theorem scrPages_query_bound (username : String) (toTs : Option Int) (total : Nat)
    (pages : Nat → Except Unit (List PyVal)) :
    ∀ (ps : List Nat) (tracks : List PyVal) (seen : Finset ScrKey),
      (∀ q b, Ev.queryPage q b ∈ (scrPages username toTs total pages ps tracks seen).1 →
        b = toTs) ∧
      (∀ b, Ev.queryTotal b ∉ (scrPages username toTs total pages ps tracks seen).1) := by
  intro ps
  induction ps with
  | nil =>
    intro tracks seen
    constructor
    · intro q b h
      simp [scrPages] at h
    · intro b h
      simp [scrPages] at h
  | cons p rest ih =>
    intro tracks seen
    unfold scrPages
    cases hps : pageStep username toTs total pages p tracks seen with
    | mk evs out =>
      have hq : ∀ q b, Ev.queryPage q b ∈ evs → b = toTs := by
        intro q b hm
        have h := pageStep_query_bound username toTs total pages p tracks seen q b
        rw [hps] at h
        exact h hm
      have hqt : ∀ b, Ev.queryTotal b ∉ evs := by
        intro b hm
        -- a pageStep trace has no queryTotal event: check all shapes
        have : ∀ ev ∈ (pageStep username toTs total pages p tracks seen).1,
            ∀ b', ev ≠ Ev.queryTotal b' := by
          unfold pageStep
          cases hp : pages p with
          | error e => simp
          | ok resp =>
            simp only [hp]
            cases hproc : scrProcessPage resp tracks seen with
            | error e => simp
            | ok st =>
              obtain ⟨tracks', seen'⟩ := st
              simp only [hproc]
              by_cases hcp : (p % 10 == 0 || p == total) = true
              · rw [if_pos hcp]
                cases hck : checkpointStep username total p tracks' with
                | error e => simp [hck]
                | ok evs' =>
                  have hevs : ∃ o, evs' = [Ev.writeScrobbles tracks',
                      Ev.writeState username p total tracks'.length o] := by
                    unfold checkpointStep at hck
                    simp only [Bind.bind] at hck
                    cases ho : oldestTsExpr tracks' with
                    | error e => rw [ho] at hck; cases hck
                    | ok o =>
                      rw [ho] at hck
                      simp only [Except.bind] at hck
                      injection hck with hck
                      exact ⟨o, hck.symm⟩
                  obtain ⟨o, rfl⟩ := hevs
                  simp [hck]
              · rw [if_neg hcp]
                simp
        rw [hps] at this
        exact this _ hm b rfl
      cases out with
      | error e => simp only [hps]; exact ⟨hq, hqt⟩
      | ok st =>
        obtain ⟨tracks', seen'⟩ := st
        simp only [hps]
        obtain ⟨ihq, ihqt⟩ := ih tracks' seen'
        constructor
        · intro q b hm
          rcases List.mem_append.mp hm with hm | hm
          · exact hq q b hm
          · exact ihq q b hm
        · intro b hm
          rcases List.mem_append.mp hm with hm | hm
          · exact hqt b hm
          · exact ihqt b hm

/-- C2: in every scrobbles run, the total-page-count query and every page
request carry exactly the resume cutoff computed at startup as their upper
time bound; the cutoff is `oldest stored timestamp − 1` when the loaded
file is non-empty and its last (oldest) record has a truthy, parseable
timestamp, and it is `None` in every no-prior-dated-records case (missing
file, unreadable file, empty collection, falsy date of the last record).
Loading includes the identity-key pass over the file (the source performs
it inside the same `try`, lines 193-217). -/
theorem resume_cutoff (state : Option PyVal) (fc : Option (Except Unit (List PyVal)))
    (totalResp : Option Int → Except Unit Nat)
    (pages : Nat → Option Int → Except Unit (List PyVal)) (username : String) :
    (∀ b, Ev.queryTotal b ∈ (scrRun state fc totalResp pages username).1 →
      b = (initScrobbles fc).2.2) ∧
    (∀ p b, Ev.queryPage p b ∈ (scrRun state fc totalResp pages username).1 →
      b = (initScrobbles fc).2.2) ∧
    (∀ ts fs dv d s0,
      fc = some (.ok ts) → buildSeen ts ∅ = .ok s0 →
      ts.getLast? = some (.dict fs) →
      (pyLookup fs "date").getD .null = dv →
      pyTruthy dv = true → pyIntOf dv = some d →
      (initScrobbles fc).2.2 = some (d - 1)) ∧
    ((fc = none → (initScrobbles fc).2.2 = none) ∧
     (∀ e, fc = some (.error e) → (initScrobbles fc).2.2 = none) ∧
     (∀ ts, fc = some (.ok ts) → ts.getLast? = none →
       (initScrobbles fc).2.2 = none) ∧
     (∀ ts fs, fc = some (.ok ts) → ts.getLast? = some (.dict fs) →
       pyTruthy ((pyLookup fs "date").getD .null) = false →
       (initScrobbles fc).2.2 = none)) := by
  refine ⟨?_, ?_, ?_, ?_, ?_, ?_, ?_⟩
  · intro b hm
    unfold scrRun at hm
    cases ht : totalResp (initScrobbles fc).2.2 with
    | error e =>
      simp only [ht] at hm
      simp at hm
      exact hm
    | ok total =>
      simp only [ht] at hm
      rcases List.mem_cons.mp hm with heq | hm'
      · injection heq
      · exact absurd hm' ((scrPages_query_bound username (initScrobbles fc).2.2 total
          (fun p => pages p (initScrobbles fc).2.2) (List.range' 1 total)
          (initScrobbles fc).1 (initScrobbles fc).2.1).2 b)
  · intro p b hm
    unfold scrRun at hm
    cases ht : totalResp (initScrobbles fc).2.2 with
    | error e =>
      simp only [ht] at hm
      simp at hm
    | ok total =>
      simp only [ht] at hm
      rcases List.mem_cons.mp hm with heq | hm'
      · cases heq
      · exact (scrPages_query_bound username (initScrobbles fc).2.2 total
          (fun p => pages p (initScrobbles fc).2.2) (List.range' 1 total)
          (initScrobbles fc).1 (initScrobbles fc).2.1).1 p b hm'
  · intro ts fs dv d s0 hfc hseen hlast hdv htruthy hint
    subst hfc
    subst hdv
    simp [initScrobbles, hseen, hlast, htruthy, hint]
  · intro h; subst h; rfl
  · intro e h; subst h; rfl
  · intro ts hfc hlast
    subst hfc
    cases hseen : buildSeen ts ∅ with
    | error e => simp [initScrobbles, hseen]
    | ok s0 => simp [initScrobbles, hseen, hlast]
  · intro ts fs hfc hlast hfalsy
    subst hfc
    cases hseen : buildSeen ts ∅ with
    | error e => simp [initScrobbles, hseen]
    | ok s0 => simp [initScrobbles, hseen, hlast, hfalsy]

/-- Concrete instance of `resume_cutoff`: a loaded file whose oldest record
has timestamp 100 gives cutoff 99, and the single page fetch of the run
carries exactly that bound. -/
theorem resume_cutoff_witness :
    (initScrobbles (some (.ok [PyVal.dict [("date", PyVal.str "100")]]))).2.2 =
      some (100 - 1) ∧
    some (99 : Int) =
      (initScrobbles (some (.ok [PyVal.dict [("date", PyVal.str "100")]]))).2.2 :=
  ⟨(resume_cutoff none (some (.ok [PyVal.dict [("date", PyVal.str "100")]]))
      (fun _ => .ok 1) (fun _ _ => .ok []) "u").2.2.1
      [PyVal.dict [("date", PyVal.str "100")]] [("date", PyVal.str "100")]
      (PyVal.str "100") 100
      (insert (⟨.null, .null, .null, .str "100"⟩ : ScrKey) (∅ : Finset ScrKey))
      rfl (by rfl) rfl rfl rfl rfl,
   (resume_cutoff none (some (.ok [PyVal.dict [("date", PyVal.str "100")]]))
      (fun _ => .ok 1) (fun _ _ => .ok []) "u").2.1 1 (some 99) (by
        rw [show (scrRun none (some (.ok [PyVal.dict [("date", PyVal.str "100")]]))
          (fun _ => .ok 1) (fun _ _ => .ok []) "u").1 =
          [Ev.queryTotal (some 99), Ev.queryPage 1 (some 99),
           Ev.writeScrobbles [PyVal.dict [("date", PyVal.str "100")]],
           Ev.writeState "u" 1 1 1 (some 100)] from rfl]
        simp)⟩

/-- The record appended for a fetched key reads back as exactly that key. -/
theorem storedKey_newRecord (k : ScrKey) : storedKey (newRecord k) = k := by
  obtain ⟨a, n, al, d⟩ := k
  simp [newRecord, storedKey, pyLookup]

/-- A loaded record only yields a key when it is a dict, and then the key
is its stored key. -/
theorem loadedKey_eq_storedKey (t : PyVal) (k : ScrKey)
    (h : loadedKey t = .ok k) : k = storedKey t := by
  cases t with
  | null => simp [loadedKey, pyDictGet, pyDictGetD, Bind.bind, Except.bind] at h
  | str s => simp [loadedKey, pyDictGet, pyDictGetD, Bind.bind, Except.bind] at h
  | dict fs =>
    simp only [loadedKey, pyDictGet, pyDictGetD, Bind.bind, Except.bind] at h
    injection h with h
    rw [← h]
    rfl

/-- Keys accumulated while scanning the loaded collection: the accumulator
is preserved and every scanned record's key is present. -/
theorem buildSeen_mem : ∀ (ts : List PyVal) (acc s : Finset ScrKey),
    buildSeen ts acc = .ok s →
    (∀ k, k ∈ acc → k ∈ s) ∧ (∀ t, t ∈ ts → storedKey t ∈ s) := by
  intro ts
  induction ts with
  | nil =>
    intro acc s h
    simp only [buildSeen] at h
    injection h with h
    subst h
    exact ⟨fun k hk => hk, fun t ht => absurd ht (List.not_mem_nil t)⟩
  | cons t rest ih =>
    intro acc s h
    simp only [buildSeen] at h
    cases hlk : loadedKey t with
    | error e => rw [hlk] at h; cases h
    | ok k =>
      rw [hlk] at h
      obtain ⟨hacc, hrest⟩ := ih (insert k acc) s h
      refine ⟨fun k' hk' => hacc k' (Finset.mem_insert_of_mem hk'), ?_⟩
      intro t' ht'
      rcases List.mem_cons.mp ht' with rfl | ht''
      · rw [← loadedKey_eq_storedKey t' k hlk]
        exact hacc k (Finset.mem_insert_self k acc)
      · exact hrest t' ht''

/-- The dedup invariant carried through the scrobbles loop: the collection
has pairwise-distinct identity keys and the index contains them all. -/
def ScrInv (tracks : List PyVal) (seen : Finset ScrKey) : Prop :=
  (tracks.map storedKey).Nodup ∧ ∀ k, k ∈ tracks.map storedKey → k ∈ seen

theorem scrProcessTrack_inv (track : PyVal) (tracks tracks' : List PyVal)
    (seen seen' : Finset ScrKey) (hinv : ScrInv tracks seen)
    (h : scrProcessTrack track tracks seen = .ok (tracks', seen')) :
    ScrInv tracks' seen' := by
  unfold scrProcessTrack at h
  cases hkb : keyBuild track with
  | ok k =>
    simp only [hkb] at h
    by_cases hmem : k ∈ seen
    · rw [if_pos hmem] at h
      injection h with h
      injection h with h1 h2
      subst h1; subst h2
      exact hinv
    · rw [if_neg hmem] at h
      injection h with h
      injection h with h1 h2
      subst h1; subst h2
      constructor
      · rw [List.map_append]
        rw [List.nodup_append]
        refine ⟨hinv.1, by simp [storedKey_newRecord], ?_⟩
        intro k' hk' hk''
        simp only [List.map_cons, List.map_nil, storedKey_newRecord] at hk''
        rcases List.mem_singleton.mp hk'' with rfl
        exact hmem (hinv.2 k' hk')
      · intro k' hk'
        rw [List.map_append] at hk'
        rcases List.mem_append.mp hk' with hk'' | hk''
        · exact Finset.mem_insert_of_mem (hinv.2 k' hk'')
        · simp only [List.map_cons, List.map_nil, storedKey_newRecord] at hk''
          rcases List.mem_singleton.mp hk'' with rfl
          exact Finset.mem_insert_self _ _
  | error e =>
    simp only [hkb] at h
    by_cases hc : strContains (pyStr track) "nowplaying" = true
    · rw [if_pos hc] at h
      injection h with h
      injection h with h1 h2
      subst h1; subst h2
      exact hinv
    · rw [if_neg hc] at h
      cases h

theorem scrProcessPage_inv : ∀ (resp tracks tracks' : List PyVal)
    (seen seen' : Finset ScrKey), ScrInv tracks seen →
    scrProcessPage resp tracks seen = .ok (tracks', seen') →
    ScrInv tracks' seen' := by
  intro resp
  induction resp with
  | nil =>
    intro tracks tracks' seen seen' hinv h
    simp only [scrProcessPage] at h
    injection h with h
    injection h with h1 h2
    subst h1; subst h2
    exact hinv
  | cons t rest ih =>
    intro tracks tracks' seen seen' hinv h
    simp only [scrProcessPage] at h
    cases hstep : scrProcessTrack t tracks seen with
    | error e => rw [hstep] at h; cases h
    | ok st =>
      obtain ⟨tracks'', seen''⟩ := st
      rw [hstep] at h
      exact ih tracks'' tracks' seen'' seen'
        (scrProcessTrack_inv t tracks tracks'' seen seen'' hinv hstep) h

/-- The startup state satisfies the dedup invariant whenever the loaded
collection has pairwise-distinct identity keys (in the fresh-start branches
the collection is empty and the invariant is trivial). -/
theorem initScrobbles_inv (fc : Option (Except Unit (List PyVal)))
    (hnd : ((initScrobbles fc).1.map storedKey).Nodup) :
    ScrInv (initScrobbles fc).1 (initScrobbles fc).2.1 := by
  refine ⟨hnd, ?_⟩
  cases fc with
  | none => simp [initScrobbles]
  | some r =>
    cases r with
    | error e => simp [initScrobbles]
    | ok ts =>
      cases hseen : buildSeen ts ∅ with
      | error e => simp [initScrobbles, hseen]
      | ok s0 =>
        cases hlast : ts.getLast? with
        | none => simp [initScrobbles, hseen, hlast]
        | some t =>
          cases t with
          | null => simp [initScrobbles, hseen, hlast]
          | str s => simp [initScrobbles, hseen, hlast]
          | dict fs =>
            by_cases htr : pyTruthy ((pyLookup fs "date").getD .null) = true
            · cases hint : pyIntOf ((pyLookup fs "date").getD .null) with
              | some d =>
                simp only [initScrobbles, hseen, hlast, htr, hint, if_pos]
                intro k hk
                obtain ⟨t', ht', rfl⟩ := List.mem_map.mp hk
                exact (buildSeen_mem ts ∅ s0 hseen).2 t' ht'
              | none => simp [initScrobbles, hseen, hlast, htr, hint]
            · simp [initScrobbles, hseen, hlast, htr]

/-- Every collection the scrobbles loop writes to `scrobbles.json` has
pairwise-distinct identity keys, given the invariant at entry. -/
theorem scrPages_writes_nodup (username : String) (toTs : Option Int) (total : Nat)
    (pages : Nat → Except Unit (List PyVal)) :
    ∀ (ps : List Nat) (tracks : List PyVal) (seen : Finset ScrKey),
      ScrInv tracks seen →
      ∀ c, Ev.writeScrobbles c ∈ (scrPages username toTs total pages ps tracks seen).1 →
        (c.map storedKey).Nodup := by
  intro ps
  induction ps with
  | nil => intro tracks seen hinv c hc; simp [scrPages] at hc
  | cons p rest ih =>
    intro tracks seen hinv c hc
    unfold scrPages at hc
    unfold pageStep at hc
    cases hp : pages p with
    | error e => simp [hp] at hc
    | ok resp =>
      simp only [hp] at hc
      cases hproc : scrProcessPage resp tracks seen with
      | error e => simp [hproc] at hc
      | ok st =>
        obtain ⟨tracks', seen'⟩ := st
        have hinv' := scrProcessPage_inv resp tracks tracks' seen seen' hinv hproc
        simp only [hproc] at hc
        by_cases hcp : (p % 10 == 0 || p == total) = true
        · rw [if_pos hcp] at hc
          cases hck : checkpointStep username total p tracks' with
          | error e => simp [hck] at hc
          | ok evs =>
            simp only [hck] at hc
            have hevs : ∃ o, evs = [Ev.writeScrobbles tracks',
                Ev.writeState username p total tracks'.length o] := by
              unfold checkpointStep at hck
              simp only [Bind.bind] at hck
              cases ho : oldestTsExpr tracks' with
              | error e => rw [ho] at hck; cases hck
              | ok o =>
                rw [ho] at hck
                simp only [Except.bind] at hck
                injection hck with hck
                exact ⟨o, hck.symm⟩
            obtain ⟨o, rfl⟩ := hevs
            simp only [List.cons_append, List.mem_cons, List.mem_append] at hc
            rcases hc with hc | hc | hc | hc
            · cases hc
            · injection hc with hc
              subst hc
              exact hinv'.1
            · cases hc
            · rcases hc with hc | hc
              · simp at hc
              · exact ih tracks' seen' hinv' c hc
        · rw [if_neg hcp] at hc
          rcases List.mem_cons.mp hc with hc' | hc'
          · cases hc'
          · exact ih tracks' seen' hinv' c hc'

/-- C1: a fetched raw record whose identity key is already in the dedup
index is never appended again, and — provided the loaded output file had no
duplicate identity keys — every collection written to `scrobbles.json` at a
checkpoint has no duplicate identity keys. -/
theorem dedup_invariant (state : Option PyVal) (fc : Option (Except Unit (List PyVal)))
    (totalResp : Option Int → Except Unit Nat)
    (pages : Nat → Option Int → Except Unit (List PyVal)) (username : String)
    (hnd : ((initScrobbles fc).1.map storedKey).Nodup) :
    (∀ track tracks seen k, keyBuild track = .ok k → k ∈ seen →
      scrProcessTrack track tracks seen = .ok (tracks, seen)) ∧
    (∀ c, Ev.writeScrobbles c ∈ (scrRun state fc totalResp pages username).1 →
      (c.map storedKey).Nodup) := by
  constructor
  · intro track tracks seen k hkb hmem
    simp [scrProcessTrack, hkb, hmem]
  · intro c hc
    unfold scrRun at hc
    cases ht : totalResp (initScrobbles fc).2.2 with
    | error e => simp [ht] at hc
    | ok total =>
      simp only [ht] at hc
      rcases List.mem_cons.mp hc with hc' | hc'
      · cases hc'
      · exact scrPages_writes_nodup username (initScrobbles fc).2.2 total
          (fun p => pages p (initScrobbles fc).2.2) (List.range' 1 total)
          (initScrobbles fc).1 (initScrobbles fc).2.1
          (initScrobbles_inv fc hnd) c hc'

/-- Concrete instance of `dedup_invariant`: a run resumed from a
one-record file checkpoints a collection whose identity keys are
pairwise distinct. -/
theorem dedup_invariant_witness :
    (([PyVal.dict [("artist", PyVal.str "A"), ("name", PyVal.str "N"),
      ("album", PyVal.str "B"), ("date", PyVal.str "100")]].map storedKey)).Nodup :=
  (dedup_invariant none
    (some (.ok [PyVal.dict [("artist", PyVal.str "A"), ("name", PyVal.str "N"),
      ("album", PyVal.str "B"), ("date", PyVal.str "100")]]))
    (fun _ => .ok 1) (fun _ _ => .ok []) "u" (by decide)).2
    [PyVal.dict [("artist", PyVal.str "A"), ("name", PyVal.str "N"),
      ("album", PyVal.str "B"), ("date", PyVal.str "100")]]
    (by
      rw [show (scrRun none
          (some (.ok [PyVal.dict [("artist", PyVal.str "A"), ("name", PyVal.str "N"),
            ("album", PyVal.str "B"), ("date", PyVal.str "100")]]))
          (fun _ => .ok 1) (fun _ _ => .ok []) "u").1 =
        [Ev.queryTotal (some 99), Ev.queryPage 1 (some 99),
         Ev.writeScrobbles [PyVal.dict [("artist", PyVal.str "A"), ("name", PyVal.str "N"),
           ("album", PyVal.str "B"), ("date", PyVal.str "100")]],
         Ev.writeState "u" 1 1 1 (some 100)] from rfl]
      simp)
